import Mathlib

/-!
Verification of the graph-construction and diagnostics logic of
`src/workflow_analyzer2.py` (the "Enhanced DSL Workflow Analyzer").

The Python source is shallowly embedded below.  Python strings are Lean
`String`s; `str.split(sep)` is embedded as `pySplit` (explicit fuel so the
kernel can evaluate it); Python dicts that are only read through lookups are
embedded as association lists with last-write-wins insertion; the crash on
`label_parts[1]` (an `IndexError` when a step `Name` holds no " - ") makes the
node pass, and hence the whole build, return `none`.
-/

namespace Workflow2

/-- Embeds the test "does `sep` occur at the head of `l`": `some rest` drops
one occurrence of `sep`, `none` means no occurrence here. -/
def consumeSep : List Char → List Char → Option (List Char)
  | [], l => some l
  | _ :: _, [] => none
  | c :: cs, d :: ds => if c = d then consumeSep cs ds else none

/-- Fuel-indexed worker for `pySplit`; `cur` is the token being accumulated. -/
def splitGo (sep : List Char) : Nat → List Char → List Char → List (List Char)
  | 0, cur, _ => [cur]
  | _ + 1, cur, [] => [cur]
  | fuel + 1, cur, c :: rest =>
    match consumeSep sep (c :: rest) with
    | some rest2 => cur :: splitGo sep fuel [] rest2
    | none => splitGo sep fuel (cur ++ [c]) rest

/-- Embeds Python `s.split(sep)` for a non-empty separator: non-overlapping
left-to-right splitting; the result is never the empty list. -/
def pySplit (sep s : String) : List String :=
  (splitGo sep.data (s.data.length + 1) [] s.data).map String.mk

/-- Embeds one entry of `Steps` after JSON decoding (lines 66 and 74 read
`NextStepId` and `SelectNextStep` with presence checks, so both are optional;
`SelectNextStep` keeps the JSON object's insertion order). -/
structure Step where
  id : String
  name : String
  stepType : String
  nextStepId : Option String
  selectNextStep : Option (List (String × String))
  deriving DecidableEq

/-- Embeds a pyvis node as added on line 62 of the source. -/
structure NodeView where
  id : String
  label : String
  color : String
  title : String
  shape : String
  mass : Nat
  deriving DecidableEq

/-- Embeds a pyvis edge as added on lines 69 and 77 of the source: a direct
edge carries no title, no colour override and `dash = false`; a conditional
edge carries the condition as `title`, colour `"#ffa500"` and `dash = true`. -/
structure EdgeView where
  fromId : String
  toId : String
  title : Option String
  color : Option String
  dash : Bool
  value : Nat
  deriving DecidableEq

/-- The outcome of a successful build: the pyvis node list, the edge list and
the `missing_nodes` accumulator of lines 46/71/79. -/
structure Graph where
  nodes : List NodeView
  edges : List EdgeView
  missing_nodes : List String
  deriving DecidableEq

/-- Embeds line 45: `valid_step_ids = set(step['Id'] for step in steps)`;
membership in this list is membership in that set. -/
def valid_step_ids (steps : List Step) : List String :=
  steps.map Step.id

/-- Embeds line 53: `step["StepType"].split(",")[0].split(".")[-1]`. -/
def normalize_step_type (t : String) : String :=
  (pySplit "." ((pySplit "," t).headD "")).getLastD ""

/-- Embeds lines 31-36, the `type_colors` table. -/
def type_colors : List (String × String) :=
  [("ApiCallerStep", "#1f78b4"), ("ContextConfiguratorStep", "#33a02c"),
   ("DecideStep", "#ff7f00"), ("MessageSenderStep", "#e31a1c")]

/-- Embeds line 54: `type_colors.get(step_type, "#a6cee3")`. -/
def colorFor (t : String) : String :=
  (type_colors.lookup t).getD "#a6cee3"

/-- Embeds lines 58-61.  `label_parts = step["Name"].split(" - ")` followed by
`label_parts[0] + "\n        " + label_parts[1]`; the `[1]` access raises
`IndexError` (embedded as `none`) when the split yields fewer than two parts. -/
def mkLabel (name : String) : Option String :=
  let parts := pySplit " - " name
  match parts.get? 1 with
  | some p1 => some ((parts.headD "") ++ "\n        " ++ p1)
  | none => none

/-- Embeds the node construction of lines 52-62 for one step
(`title = f"{step['Id']}"`, `shape = "box"`, `mass = 7`). -/
def mkNode (s : Step) : Option NodeView :=
  match mkLabel s.name with
  | some label => some ⟨s.id, label, colorFor (normalize_step_type s.stepType), s.id, "box", 7⟩
  | none => none

/-- Embeds pyvis `Network.add_node`: a node whose id is already registered is
skipped, otherwise it is appended. -/
def addNode (acc : List NodeView) (n : NodeView) : List NodeView :=
  if n.id ∈ acc.map NodeView.id then acc else acc ++ [n]

/-- Embeds the PASS 1 loop of lines 52-62; `none` when some step's label
construction raises. -/
def buildNodesAux : List NodeView → List Step → Option (List NodeView)
  | acc, [] => some acc
  | acc, s :: rest =>
    match mkNode s with
    | some n => buildNodesAux (addNode acc n) rest
    | none => none

/-- PASS 1 started from the empty network. -/
def buildNodes (steps : List Step) : Option (List NodeView) :=
  buildNodesAux [] steps

/-- Embeds lines 66-69: the direct edge of one step.  Python's
`if next_step_id and next_step_id in valid_step_ids` is truthiness on an
optional string: `None` and `""` are both falsy. -/
def directEdges (valid : List String) (s : Step) : List EdgeView :=
  match s.nextStepId with
  | none => []
  | some t => if t ≠ "" then (if t ∈ valid then [⟨s.id, t, none, none, false, 2⟩] else []) else []

/-- Embeds lines 70-71: the `elif next_step_id:` branch appending to
`missing_nodes`. -/
def directMissing (valid : List String) (s : Step) : List String :=
  match s.nextStepId with
  | none => []
  | some t => if t ≠ "" then (if t ∈ valid then [] else [t]) else []

/-- Embeds lines 74-77: the conditional edges of one step, in the
`SelectNextStep` mapping's insertion order. -/
def condEdges (valid : List String) (sid : String) : List (String × String) → List EdgeView
  | [] => []
  | (t, cond) :: rest =>
    if t ∈ valid then ⟨sid, t, some cond, some "#ffa500", true, 2⟩ :: condEdges valid sid rest
    else condEdges valid sid rest

/-- Embeds lines 78-79: the conditional branch of `missing_nodes`. -/
def condMissing (valid : List String) : List (String × String) → List String
  | [] => []
  | (t, _) :: rest =>
    if t ∈ valid then condMissing valid rest else t :: condMissing valid rest

/-- All edges contributed by one step in PASS 2: the direct edge (if any)
followed by the conditional edges. -/
def stepEdges (valid : List String) (s : Step) : List EdgeView :=
  directEdges valid s ++ condEdges valid s.id (s.selectNextStep.getD [])

/-- All `missing_nodes` entries contributed by one step in PASS 2. -/
def stepMissing (valid : List String) (s : Step) : List String :=
  directMissing valid s ++ condMissing valid (s.selectNextStep.getD [])

/-- Embeds the PASS 2 loop of lines 65-79, threading the edge list and the
`missing_nodes` list through the iteration. -/
def edgePhaseAux (valid : List String) : List EdgeView × List String → List Step → List EdgeView × List String
  | acc, [] => acc
  | acc, s :: rest =>
    edgePhaseAux valid (acc.1 ++ stepEdges valid s, acc.2 ++ stepMissing valid s) rest

/-- PASS 2 started from empty accumulators. -/
def edgePhase (valid : List String) (steps : List Step) : List EdgeView × List String :=
  edgePhaseAux valid ([], []) steps

/-- The whole graph construction of lines 44-79: PASS 1 then PASS 2; `none`
when PASS 1 raises. -/
def buildGraph (steps : List Step) : Option Graph :=
  match buildNodes steps with
  | none => none
  | some ns =>
    some ⟨ns, (edgePhase (valid_step_ids steps) steps).1, (edgePhase (valid_step_ids steps) steps).2⟩

/-- Embeds a Python dict update `m[k] = v` on an insertion-ordered dict:
an existing key keeps its position and gets the new value, a new key is
appended. -/
def dictInsert (m : List (String × String)) (k v : String) : List (String × String) :=
  if k ∈ m.map Prod.fst then m.map (fun p => if p.1 = k then (k, v) else p)
  else m ++ [(k, v)]

/-- Embeds line 28: `{step['Id']: step['Name'] for step in dsl_data['Steps']}`. -/
def step_id_to_name (steps : List Step) : List (String × String) :=
  steps.foldl (fun m s => dictInsert m s.id s.name) []

/-- Embeds Python `dict.get(key)` on an insertion-ordered dict (the name
resolutions on lines 122 and 139 of the source). -/
def dictGet : List (String × String) → String → Option String
  | [], _ => none
  | (k, v) :: rest, key => if k = key then some v else dictGet rest key

/-- A decoded JSON value, as produced by `json.load` on line 14; an object's
key/value pairs keep the document order. -/
inductive Json where
  | null : Json
  | bool : Bool → Json
  | num : Int → Json
  | str : String → Json
  | arr : List Json → Json
  | obj : List (String × Json) → Json

/-- Key lookup in a decoded JSON object's pair list. -/
def jget : List (String × Json) → String → Option Json
  | [], _ => none
  | (k, v) :: rest, key => if k = key then some v else jget rest key

/-- Key access on a decoded JSON value: `some` when the value is an object
holding the key, `none` otherwise (in Python the corresponding `[...]` access
raises `KeyError`/`TypeError`). -/
def Json.get? (j : Json) (key : String) : Option Json :=
  match j with
  | .obj kvs => jget kvs key
  | _ => none

/-- The two fatal failure classes of the pipeline: `parseError` stands for
`json.JSONDecodeError` out of line 14, `schemaError` for the
`KeyError`/`TypeError` raised by the required-field accesses of lines 19-28,
by iterating a non-iterable `Steps` value, or by the per-entry accesses of
the line-28 comprehension. -/
inductive LoadError where
  | parseError : LoadError
  | schemaError : LoadError
  deriving DecidableEq

/-- Embeds Python iteration `for step in x`: a list yields its elements, a
dict its keys (strings), a string its characters as one-character strings;
any other value raises `TypeError` (`none`). -/
def pyIter : Json → Option (List Json)
  | .arr xs => some xs
  | .obj kvs => some (kvs.map (fun p => Json.str p.1))
  | .str s => some (s.data.map (fun c => Json.str (String.mk [c])))
  | _ => none

/-- Embeds the two accesses `step['Id']` and `step['Name']` that the line-28
comprehension performs on each iterated entry: `true` when both succeed. -/
def stepEntryOk (j : Json) : Bool :=
  (j.get? "Id").isSome && (j.get? "Name").isSome

/-- The document data consumed by the rest of the pipeline after the accesses
of lines 19-28 all succeeded. -/
structure WorkflowDocument where
  docId : Json
  version : Json
  releaseVersion : Json
  dataType : Json
  steps : List Json

/-- Embeds the load region, lines 14-28: the document's `Id`, `Version`,
`ReleaseVersion`, `DataType` and `Steps` are all read before any graph work
(line 45 onwards); a missing key raises `KeyError`.  The `Steps` value itself
is never type-checked: the line-28 comprehension simply iterates it
(`TypeError` if it is not iterable) and accesses `step['Id']` and
`step['Name']` on each yielded entry, so a non-sequence such as an empty dict
or empty string iterates vacuously and loads as zero steps, while a
non-empty dict or string fails only because its yielded entries are strings
whose `[...]` access raises.  Every such failure surfaces as the
schema-failure class. -/
def loadDocument (j : Json) : Except LoadError WorkflowDocument :=
  match j.get? "Id" with
  | none => .error .schemaError
  | some i =>
    match j.get? "Version" with
    | none => .error .schemaError
    | some v =>
      match j.get? "ReleaseVersion" with
      | none => .error .schemaError
      | some rv =>
        match j.get? "DataType" with
        | none => .error .schemaError
        | some dt =>
          match j.get? "Steps" with
          | none => .error .schemaError
          | some stepsJ =>
            match pyIter stepsJ with
            | none => .error .schemaError
            | some items =>
              if items.all stepEntryOk then .ok ⟨i, v, rv, dt, items⟩
              else .error .schemaError

/-! ### Helper lemmas about the edge phase -/

theorem edgePhaseAux_eq (valid : List String) :
    ∀ (steps : List Step) (acc : List EdgeView × List String),
      edgePhaseAux valid acc steps =
        (acc.1 ++ steps.flatMap (stepEdges valid), acc.2 ++ steps.flatMap (stepMissing valid)) := by
  intro steps
  induction steps with
  | nil => intro acc; simp [edgePhaseAux]
  | cons s rest ih => intro acc; simp [edgePhaseAux, ih]

theorem edgePhase_fst (valid : List String) (steps : List Step) :
    (edgePhase valid steps).1 = steps.flatMap (stepEdges valid) := by
  simp [edgePhase, edgePhaseAux_eq]

theorem edgePhase_snd (valid : List String) (steps : List Step) :
    (edgePhase valid steps).2 = steps.flatMap (stepMissing valid) := by
  simp [edgePhase, edgePhaseAux_eq]

theorem mem_directEdges (valid : List String) (s : Step) (e : EdgeView) :
    e ∈ directEdges valid s ↔
      ∃ t, s.nextStepId = some t ∧ t ≠ "" ∧ t ∈ valid ∧ e = ⟨s.id, t, none, none, false, 2⟩ := by
  cases h : s.nextStepId with
  | none => simp [directEdges, h]
  | some t =>
    by_cases ht : t = "" <;> by_cases hv : t ∈ valid <;>
      simp [directEdges, h, ht, hv]

theorem mem_directMissing (valid : List String) (s : Step) (t : String) :
    t ∈ directMissing valid s ↔ s.nextStepId = some t ∧ t ≠ "" ∧ t ∉ valid := by
  cases h : s.nextStepId with
  | none => simp [directMissing, h]
  | some u =>
    by_cases hu : u = "" <;> by_cases hv : u ∈ valid <;>
      simp [directMissing, h, hu, hv] <;> aesop

theorem mem_condEdges (valid : List String) (sid : String) (e : EdgeView) :
    ∀ entries : List (String × String),
      e ∈ condEdges valid sid entries ↔
        ∃ t c, (t, c) ∈ entries ∧ t ∈ valid ∧ e = ⟨sid, t, some c, some "#ffa500", true, 2⟩ := by
  intro entries
  induction entries with
  | nil => simp [condEdges]
  | cons p rest ih =>
    obtain ⟨t, c⟩ := p
    by_cases hv : t ∈ valid <;> simp [condEdges, hv, ih] <;> aesop

theorem mem_condMissing (valid : List String) (t : String) :
    ∀ entries : List (String × String),
      t ∈ condMissing valid entries ↔ (∃ c, (t, c) ∈ entries) ∧ t ∉ valid := by
  intro entries
  induction entries with
  | nil => simp [condMissing]
  | cons p rest ih =>
    obtain ⟨u, c⟩ := p
    by_cases hv : u ∈ valid <;> simp [condMissing, hv, ih] <;> aesop

theorem condEdges_eq_filter_map (valid : List String) (sid : String) :
    ∀ entries : List (String × String),
      condEdges valid sid entries =
        (entries.filter (fun p => decide (p.1 ∈ valid))).map
          (fun p => ⟨sid, p.1, some p.2, some "#ffa500", true, 2⟩) := by
  intro entries
  induction entries with
  | nil => simp [condEdges]
  | cons p rest ih =>
    obtain ⟨t, c⟩ := p
    by_cases hv : t ∈ valid <;> simp [condEdges, hv, ih, List.filter]

theorem mem_stepMissing (valid : List String) (s : Step) (t : String) :
    t ∈ stepMissing valid s ↔
      ((s.nextStepId = some t ∧ t ≠ "") ∨ ∃ c, (t, c) ∈ s.selectNextStep.getD []) ∧ t ∉ valid := by
  simp [stepMissing, mem_directMissing, mem_condMissing]
  tauto

theorem missing_not_valid (valid : List String) (steps : List Step) (t : String)
    (h : t ∈ (edgePhase valid steps).2) : t ∉ valid := by
  rw [edgePhase_snd, List.mem_flatMap] at h
  obtain ⟨s, _, hs⟩ := h
  exact ((mem_stepMissing valid s t).1 hs).2

/-! ### Helper lemmas about the node phase -/

theorem mkNode_id (s : Step) (n : NodeView) (h : mkNode s = some n) : n.id = s.id := by
  unfold mkNode at h
  cases hl : mkLabel s.name with
  | none => rw [hl] at h; cases h
  | some l => rw [hl] at h; cases h; rfl

theorem mem_addNode_ids (acc : List NodeView) (n : NodeView) (x : String) :
    x ∈ (addNode acc n).map NodeView.id ↔ x ∈ acc.map NodeView.id ∨ x = n.id := by
  unfold addNode
  by_cases h : n.id ∈ acc.map NodeView.id
  · simp only [h, if_pos]
    constructor
    · exact Or.inl
    · rintro (hx | rfl) <;> [exact hx; exact h]
  · simp [h]

theorem addNode_ids_nodup (acc : List NodeView) (n : NodeView)
    (h : (acc.map NodeView.id).Nodup) : ((addNode acc n).map NodeView.id).Nodup := by
  unfold addNode
  by_cases hm : n.id ∈ acc.map NodeView.id
  · simpa [hm]
  · simp only [hm, if_neg, not_false_iff, List.map_append, List.map_cons, List.map_nil]
    rw [List.nodup_append]
    refine ⟨h, List.nodup_singleton _, ?_⟩
    intro x hx
    simp only [List.mem_singleton]
    intro hxn
    exact hm (hxn ▸ hx)

theorem buildNodesAux_mem :
    ∀ (steps : List Step) (acc ns : List NodeView),
      buildNodesAux acc steps = some ns →
      ∀ x, x ∈ ns.map NodeView.id ↔ x ∈ acc.map NodeView.id ∨ x ∈ steps.map Step.id := by
  intro steps
  induction steps with
  | nil =>
    intro acc ns h x
    cases h
    simp
  | cons s rest ih =>
    intro acc ns h x
    cases hn : mkNode s with
    | none => simp [buildNodesAux, hn] at h
    | some n =>
      simp only [buildNodesAux, hn] at h
      have hrec := ih (addNode acc n) ns h x
      rw [hrec, mem_addNode_ids, mkNode_id s n hn]
      simp only [List.map_cons, List.mem_cons]
      tauto

theorem buildNodesAux_nodup :
    ∀ (steps : List Step) (acc ns : List NodeView),
      (acc.map NodeView.id).Nodup → buildNodesAux acc steps = some ns →
      (ns.map NodeView.id).Nodup := by
  intro steps
  induction steps with
  | nil =>
    intro acc ns hacc h
    cases h
    exact hacc
  | cons s rest ih =>
    intro acc ns hacc h
    cases hn : mkNode s with
    | none => simp [buildNodesAux, hn] at h
    | some n =>
      simp only [buildNodesAux, hn] at h
      exact ih _ ns (addNode_ids_nodup acc n hacc) h

theorem buildNodesAux_length :
    ∀ (steps : List Step) (acc ns : List NodeView),
      buildNodesAux acc steps = some ns →
      (∀ s ∈ steps, s.id ∉ acc.map NodeView.id) → (steps.map Step.id).Nodup →
      ns.length = acc.length + steps.length := by
  intro steps
  induction steps with
  | nil =>
    intro acc ns h _ _
    cases h
    simp
  | cons s rest ih =>
    intro acc ns h hfresh hnodup
    cases hn : mkNode s with
    | none => simp [buildNodesAux, hn] at h
    | some n =>
      simp only [buildNodesAux, hn] at h
      have hid : n.id = s.id := mkNode_id s n hn
      have hnotin : n.id ∉ acc.map NodeView.id := by
        rw [hid]; exact hfresh s (List.mem_cons_self s rest)
      rw [show addNode acc n = acc ++ [n] from by simp [addNode, hnotin]] at h
      obtain ⟨h1, hnodup'⟩ : (∀ x ∈ rest, ¬x.id = s.id) ∧ (rest.map Step.id).Nodup := by
        simpa using hnodup
      have hsid : s.id ∉ rest.map Step.id := by
        intro hmem
        obtain ⟨x, hx, hxe⟩ := List.mem_map.1 hmem
        exact h1 x hx hxe
      have hfresh' : ∀ s' ∈ rest, s'.id ∉ (acc ++ [n]).map NodeView.id := by
        intro s' hs'
        simp only [List.map_append, List.map_cons, List.map_nil, List.mem_append,
          List.mem_cons, List.not_mem_nil, or_false, not_or]
        refine ⟨hfresh s' (List.mem_cons_of_mem s hs'), ?_⟩
        rw [hid]
        intro hcontr
        exact hsid (hcontr ▸ List.mem_map_of_mem Step.id hs')
      have hlen := ih (acc ++ [n]) ns h hfresh' hnodup'
      simp only [List.length_append, List.length_cons, List.length_nil] at hlen ⊢
      omega

/-- Destructuring a successful `buildGraph`. -/
theorem buildGraph_parts (steps : List Step) (g : Graph) (h : buildGraph steps = some g) :
    buildNodes steps = some g.nodes ∧
    g.edges = (edgePhase (valid_step_ids steps) steps).1 ∧
    g.missing_nodes = (edgePhase (valid_step_ids steps) steps).2 := by
  unfold buildGraph at h
  cases hb : buildNodes steps with
  | none => rw [hb] at h; cases h
  | some ns => rw [hb] at h; cases h; exact ⟨rfl, rfl, rfl⟩

/-- The registered node ids of a successful build are exactly the step ids. -/
theorem nodeIds_iff (steps : List Step) (g : Graph) (h : buildGraph steps = some g) (x : String) :
    x ∈ g.nodes.map NodeView.id ↔ x ∈ valid_step_ids steps := by
  have hb := (buildGraph_parts steps g h).1
  have := buildNodesAux_mem steps [] g.nodes hb x
  simpa [valid_step_ids] using this

/-! ### Helper lemmas about the step-id-to-name dict -/

theorem dictGet_map_ne (k v i : String) (hik : i ≠ k) :
    ∀ m : List (String × String),
      dictGet (m.map (fun p => if p.1 = k then (k, v) else p)) i = dictGet m i := by
  intro m
  induction m with
  | nil => simp [dictGet]
  | cons p rest ih =>
    obtain ⟨pk, pv⟩ := p
    rw [List.map_cons]
    by_cases hpk : pk = k
    · rw [show (if (Prod.mk pk pv).1 = k then (k, v) else (pk, pv)) = (k, v) from by
        subst hpk; simp]
      have h1 : ¬k = i := fun h => hik h.symm
      have h2 : ¬pk = i := fun h => hik (hpk ▸ h).symm
      simp [dictGet, h1, h2, ih]
    · rw [show (if (Prod.mk pk pv).1 = k then (k, v) else (pk, pv)) = (pk, pv) from by
        simp [hpk]]
      by_cases hip : pk = i
      · simp [dictGet, hip]
      · simp [dictGet, hip, ih]

theorem dictGet_map_self (k v : String) :
    ∀ m : List (String × String), k ∈ m.map Prod.fst →
      dictGet (m.map (fun p => if p.1 = k then (k, v) else p)) k = some v := by
  intro m
  induction m with
  | nil => simp
  | cons p rest ih =>
    obtain ⟨pk, pv⟩ := p
    intro hmem
    rw [List.map_cons]
    by_cases hpk : pk = k
    · rw [show (if (Prod.mk pk pv).1 = k then (k, v) else (pk, pv)) = (k, v) from by
        subst hpk; simp]
      simp [dictGet]
    · rw [show (if (Prod.mk pk pv).1 = k then (k, v) else (pk, pv)) = (pk, pv) from by
        simp [hpk]]
      have hmem' : k ∈ rest.map Prod.fst := by
        simp only [List.map_cons] at hmem
        rcases List.mem_cons.1 hmem with h | h
        · exact absurd h.symm hpk
        · exact h
      simp [dictGet, hpk, ih hmem']

theorem dictGet_of_not_mem (i : String) :
    ∀ m : List (String × String), i ∉ m.map Prod.fst → dictGet m i = none := by
  intro m
  induction m with
  | nil => simp [dictGet]
  | cons p rest ih =>
    obtain ⟨pk, pv⟩ := p
    intro hmem
    simp only [List.map_cons, List.mem_cons, not_or] at hmem
    have : ¬pk = i := fun h => hmem.1 h.symm
    simp [dictGet, this, ih hmem.2]

theorem dictGet_append_of_none (i k v : String) :
    ∀ m : List (String × String), dictGet m i = none →
      dictGet (m ++ [(k, v)]) i = if k = i then some v else none := by
  intro m
  induction m with
  | nil => intro h; simp [dictGet]
  | cons p rest ih =>
    obtain ⟨pk, pv⟩ := p
    intro h
    by_cases hip : pk = i
    · simp [dictGet, hip] at h
    · simp only [dictGet, if_neg hip] at h
      simp [dictGet, hip, ih h]

theorem dictGet_append_of_some (i k v w : String) :
    ∀ m : List (String × String), dictGet m i = some w →
      dictGet (m ++ [(k, v)]) i = some w := by
  intro m
  induction m with
  | nil => intro h; simp [dictGet] at h
  | cons p rest ih =>
    obtain ⟨pk, pv⟩ := p
    intro h
    by_cases hip : pk = i
    · simp only [dictGet, if_pos hip] at h
      simp [dictGet, hip, h]
    · simp only [dictGet, if_neg hip] at h
      simp [dictGet, hip, ih h]

theorem dictGet_dictInsert (m : List (String × String)) (k v i : String) :
    dictGet (dictInsert m k v) i = if k = i then some v else dictGet m i := by
  unfold dictInsert
  by_cases hmem : k ∈ m.map Prod.fst
  · simp only [if_pos hmem]
    by_cases hik : k = i
    · subst hik; simp [dictGet_map_self k v m hmem]
    · have : i ≠ k := fun h => hik h.symm
      simp [hik, dictGet_map_ne k v i this m]
  · simp only [if_neg hmem]
    by_cases hik : k = i
    · subst hik
      have h0 : dictGet m k = none := dictGet_of_not_mem k m hmem
      rw [dictGet_append_of_none k k v m h0]
      simp
    · cases h : dictGet m i with
      | none =>
        rw [dictGet_append_of_none i k v m h]
      | some w =>
        rw [dictGet_append_of_some i k v w m h]
        simp [hik]

theorem dictGet_foldl (i : String) :
    ∀ (steps : List Step) (m : List (String × String)),
      dictGet (steps.foldl (fun m s => dictInsert m s.id s.name) m) i =
        match steps.reverse.find? (fun s => s.id == i) with
        | some s => some s.name
        | none => dictGet m i := by
  intro steps
  induction steps with
  | nil => intro m; simp
  | cons s rest ih =>
    intro m
    simp only [List.foldl_cons, List.reverse_cons]
    rw [ih (dictInsert m s.id s.name)]
    rw [List.find?_append]
    cases hf : rest.reverse.find? (fun s => s.id == i) with
    | some s' => simp [Option.orElse]
    | none =>
      simp only [Option.orElse, Option.none_orElse]
      by_cases hsi : s.id = i
      · have hb : (s.id == i) = true := beq_iff_eq.2 hsi
        simp [List.find?, hb, dictGet_dictInsert, hsi]
      · have hb : (s.id == i) = false := beq_false_of_ne hsi
        simp [List.find?, hb, dictGet_dictInsert, hsi]

/-! ### Definitions taken from the words of the specification, for comparison
with the embedded code -/

/-- Stated from the claim's words: every id that "occurs as some step's
`nextStepId` or as a key of some step's `selectNextStep` mapping". -/
def allReferencedTargets (steps : List Step) : List String :=
  steps.flatMap (fun s => s.nextStepId.toList ++ (s.selectNextStep.getD []).map Prod.fst)

/-- The amended reference set: every id that occurs as some step's non-empty
`nextStepId` or as a key of some step's `selectNextStep` mapping. -/
def nonEmptyReferencedTargets (steps : List Step) : List String :=
  steps.flatMap (fun s =>
    (match s.nextStepId with
     | some t => if t ≠ "" then [t] else []
     | none => []) ++ (s.selectNextStep.getD []).map Prod.fst)

/-- Stated from the spec's words: "split on `,` and take the first segment,
then split that on `.` and take the last segment". -/
def specNormalizedType (t : String) : String :=
  (pySplit "." ((pySplit "," t).headD "")).getLastD ""

/-- Stated from the claim's words: the `Name` of the last step in document
order whose id is `i`, if any. -/
def lastNameInDoc (steps : List Step) (i : String) : Option String :=
  (steps.reverse.find? (fun s => s.id == i)).map Step.name

theorem mem_nonEmptyReferencedTargets (steps : List Step) (t : String) :
    t ∈ nonEmptyReferencedTargets steps ↔
      ∃ s ∈ steps, (s.nextStepId = some t ∧ t ≠ "") ∨ ∃ c, (t, c) ∈ s.selectNextStep.getD [] := by
  rw [nonEmptyReferencedTargets, List.mem_flatMap]
  constructor
  · rintro ⟨s, hs, hmem⟩
    refine ⟨s, hs, ?_⟩
    rcases List.mem_append.1 hmem with h | h
    · left
      cases hn : s.nextStepId with
      | none => rw [hn] at h; cases h
      | some u =>
        rw [hn] at h
        by_cases hu : u = ""
        · simp [hu] at h
        · simp [hu] at h
          subst h
          exact ⟨rfl, hu⟩
    · right
      obtain ⟨⟨u, c⟩, hp, he⟩ := List.mem_map.1 h
      exact ⟨c, by simpa [he.symm] using hp⟩
  · rintro ⟨s, hs, h | ⟨c, hc⟩⟩
    · exact ⟨s, hs, List.mem_append.2 (Or.inl (by simp [h.1, h.2]))⟩
    · exact ⟨s, hs, List.mem_append.2 (Or.inr (List.mem_map.2 ⟨(t, c), hc, rfl⟩))⟩

/-! ### Concrete documents used as witnesses and counterexamples -/

def docC1 : List Step := [⟨"A", "A - x", "T", some "Z", none⟩]

def graphC1 : Graph :=
  ⟨[⟨"A", "A\n        x", "#a6cee3", "A", "box", 7⟩], [], ["Z"]⟩

def docC1bad : List Step := [⟨"A", "A - x", "T", some "", none⟩]

def stepC2A : Step := ⟨"A", "A - x", "T", some "B", some [("B", "cond1")]⟩

def stepC2B : Step := ⟨"B", "B - y", "T", none, none⟩

def docC2 : List Step := [stepC2A, stepC2B]

def stepC2badA : Step := ⟨"A", "A - x", "T", some "", none⟩

def stepC2badB : Step := ⟨"", "B - y", "T", none, none⟩

def docC2bad : List Step := [stepC2badA, stepC2badB]

def docC3 : List Step := [⟨"A", "A - x", "T", some "B", none⟩, ⟨"B", "B - y", "T", none, none⟩]

def graphC3 : Graph :=
  ⟨[⟨"A", "A\n        x", "#a6cee3", "A", "box", 7⟩,
    ⟨"B", "B\n        y", "#a6cee3", "B", "box", 7⟩],
   [⟨"A", "B", none, none, false, 2⟩], []⟩

def docC4 : List Step := [⟨"A", "Start", "Foo.BarStep", none, none⟩]

def stepC5 : Step := ⟨"A", "A - x", "T", some "B", some [("C", "e1"), ("Z", "e2")]⟩

def entriesC5 : List (String × String) := [("C", "e1"), ("Z", "e2")]

def docC5 : List Step := [stepC5, ⟨"B", "B - y", "T", none, none⟩, ⟨"C", "C - z", "T", none, none⟩]

def graphC5 : Graph :=
  ⟨[⟨"A", "A\n        x", "#a6cee3", "A", "box", 7⟩,
    ⟨"B", "B\n        y", "#a6cee3", "B", "box", 7⟩,
    ⟨"C", "C\n        z", "#a6cee3", "C", "box", 7⟩],
   [⟨"A", "B", none, none, false, 2⟩, ⟨"A", "C", some "e1", some "#ffa500", true, 2⟩],
   ["Z"]⟩

def docC7 : Json :=
  Json.obj [("Id", Json.str "w"), ("Version", Json.str "1"),
            ("ReleaseVersion", Json.str "1"), ("DataType", Json.str "d")]

def docC7bad : Json :=
  Json.obj [("Id", Json.str "w"), ("Version", Json.str "1"),
            ("ReleaseVersion", Json.str "1"), ("DataType", Json.str "d"),
            ("Steps", Json.obj [])]

def docC8 : List Step := [⟨"A", "A - x", "T", none, none⟩, ⟨"B", "B - y", "T", none, none⟩]

def graphC8 : Graph :=
  ⟨[⟨"A", "A\n        x", "#a6cee3", "A", "box", 7⟩,
    ⟨"B", "B\n        y", "#a6cee3", "B", "box", 7⟩], [], []⟩

def validC9 : List String := ["A", "B"]

def stepC9 : Step := ⟨"A", "A - x", "T", some "", some [("B", "c1")]⟩

def docC10 : List Step :=
  [⟨"A", "first", "T", none, none⟩, ⟨"A", "second", "T", none, none⟩]

/-! ### The claims -/

/-- Claim C1, counterexample: the claim says `missingReferences` holds every
referenced id that is not a registered node id, but a step whose `NextStepId`
is present and equal to `""` references the unregistered id `""` and the code
still reports no missing reference, because `""` is falsy in Python. -/
theorem emptyNext_omitted_from_missing :
    "" ∈ allReferencedTargets docC1bad ∧ "" ∉ valid_step_ids docC1bad ∧
    (buildGraph docC1bad).map Graph.missing_nodes = some [] := by
  refine ⟨?_, ?_, ?_⟩ <;> decide

/-- Claim C1, amended: for every document whose build completes,
`missing_nodes` holds exactly the ids that occur as some step's non-empty
`nextStepId` or as a key of some step's `selectNextStep` mapping and are not
ids of registered nodes. -/
theorem missing_iff_referenced_unregistered (steps : List Step) (g : Graph)
    (hg : buildGraph steps = some g) (t : String) :
    t ∈ g.missing_nodes ↔
      t ∈ nonEmptyReferencedTargets steps ∧ t ∉ g.nodes.map NodeView.id := by
  obtain ⟨-, -, hm⟩ := buildGraph_parts steps g hg
  rw [hm, edgePhase_snd, List.mem_flatMap, mem_nonEmptyReferencedTargets]
  constructor
  · rintro ⟨s, hs, hmem⟩
    obtain ⟨href, hnv⟩ := (mem_stepMissing _ s t).1 hmem
    exact ⟨⟨s, hs, href⟩, fun hc => hnv ((nodeIds_iff steps g hg t).1 hc)⟩
  · rintro ⟨⟨s, hs, href⟩, hnm⟩
    have hnv : t ∉ valid_step_ids steps := fun hc => hnm ((nodeIds_iff steps g hg t).2 hc)
    exact ⟨s, hs, (mem_stepMissing _ s t).2 ⟨href, hnv⟩⟩

/-- Claim C1, witness for the amended statement at a concrete document with
one dangling reference. -/
theorem missing_iff_witness :
    "Z" ∈ graphC1.missing_nodes ↔
      "Z" ∈ nonEmptyReferencedTargets docC1 ∧ "Z" ∉ graphC1.nodes.map NodeView.id :=
  missing_iff_referenced_unregistered docC1 graphC1 rfl "Z"

/-- Claim C2, counterexample: the claim says every step whose `nextStepId`
equals the id of a step defined later in the document gets an edge, but when
that id is the empty string the code creates no edge (and adds nothing to
`missing_nodes` either), because `""` is falsy in Python. -/
theorem forward_empty_id_no_edge :
    stepC2badA ∈ docC2bad ∧ stepC2badA.nextStepId = some "" ∧
    stepC2badB ∈ docC2bad ∧ stepC2badB.id = "" ∧
    (buildGraph docC2bad).map Graph.edges = some [] ∧
    (buildGraph docC2bad).map Graph.missing_nodes = some [] := by
  refine ⟨?_, ?_, ?_, ?_, ?_, ?_⟩ <;> decide

/-- Claim C2, amended: edge resolution consults the complete node set, so for
every step whose non-empty `nextStepId`, or `selectNextStep` key, equals the
id of any step of the document (in particular one defined later), the
corresponding edge is created and the target id is never put in
`missing_nodes`. -/
theorem registered_target_edge_created (steps : List Step) (s s' : Step) (t : String)
    (hs : s ∈ steps) (hs' : s' ∈ steps) (hid : s'.id = t) :
    ((s.nextStepId = some t ∧ t ≠ "") →
      EdgeView.mk s.id t none none false 2 ∈ (edgePhase (valid_step_ids steps) steps).1) ∧
    (∀ c, (t, c) ∈ s.selectNextStep.getD [] →
      EdgeView.mk s.id t (some c) (some "#ffa500") true 2 ∈
        (edgePhase (valid_step_ids steps) steps).1) ∧
    t ∉ (edgePhase (valid_step_ids steps) steps).2 := by
  have htv : t ∈ valid_step_ids steps := hid ▸ List.mem_map_of_mem Step.id hs'
  refine ⟨?_, ?_, ?_⟩
  · rintro ⟨hnext, hne⟩
    rw [edgePhase_fst, List.mem_flatMap]
    refine ⟨s, hs, ?_⟩
    rw [stepEdges, List.mem_append]
    exact Or.inl ((mem_directEdges _ s _).2 ⟨t, hnext, hne, htv, rfl⟩)
  · intro c hc
    rw [edgePhase_fst, List.mem_flatMap]
    refine ⟨s, hs, ?_⟩
    rw [stepEdges, List.mem_append]
    exact Or.inr ((mem_condEdges _ s.id _ _).2 ⟨t, c, hc, htv, rfl⟩)
  · intro hmem
    exact missing_not_valid _ steps t hmem htv

/-- Claim C2, witness: in a document where step `A` references the later step
`B` both directly and conditionally, both edges exist and `B` is not reported
missing. -/
theorem registered_target_edge_created_witness :
    EdgeView.mk "A" "B" none none false 2 ∈ (edgePhase (valid_step_ids docC2) docC2).1 ∧
    EdgeView.mk "A" "B" (some "cond1") (some "#ffa500") true 2 ∈
      (edgePhase (valid_step_ids docC2) docC2).1 ∧
    "B" ∉ (edgePhase (valid_step_ids docC2) docC2).2 :=
  ⟨(registered_target_edge_created docC2 stepC2A stepC2B "B" (by decide) (by decide) rfl).1
      ⟨rfl, by decide⟩,
   (registered_target_edge_created docC2 stepC2A stepC2B "B" (by decide) (by decide) rfl).2.1
      "cond1" (by decide),
   (registered_target_edge_created docC2 stepC2A stepC2B "B" (by decide) (by decide) rfl).2.2⟩

/-- Claim C3: in every graph the build produces, each edge's `from` and `to`
endpoints are ids of registered nodes; no edge targets an unregistered id. -/
theorem edge_endpoints_registered (steps : List Step) (g : Graph)
    (hg : buildGraph steps = some g) (e : EdgeView) (he : e ∈ g.edges) :
    e.fromId ∈ g.nodes.map NodeView.id ∧ e.toId ∈ g.nodes.map NodeView.id := by
  obtain ⟨-, hedges, -⟩ := buildGraph_parts steps g hg
  rw [hedges, edgePhase_fst, List.mem_flatMap] at he
  obtain ⟨s, hs, hmem⟩ := he
  rw [stepEdges, List.mem_append] at hmem
  have hsid : s.id ∈ valid_step_ids steps := List.mem_map_of_mem Step.id hs
  rcases hmem with h | h
  · obtain ⟨t, hnext, hne, htv, rfl⟩ := (mem_directEdges _ s e).1 h
    exact ⟨(nodeIds_iff steps g hg _).2 hsid, (nodeIds_iff steps g hg _).2 htv⟩
  · obtain ⟨t, c, hc, htv, rfl⟩ := (mem_condEdges _ s.id e _).1 h
    exact ⟨(nodeIds_iff steps g hg _).2 hsid, (nodeIds_iff steps g hg _).2 htv⟩

/-- Claim C3, witness: the one edge of a concrete two-step document has both
endpoints registered. -/
theorem edge_endpoints_registered_witness :
    (EdgeView.mk "A" "B" none none false 2).fromId ∈ graphC3.nodes.map NodeView.id ∧
    (EdgeView.mk "A" "B" none none false 2).toId ∈ graphC3.nodes.map NodeView.id :=
  edge_endpoints_registered docC3 graphC3 rfl (EdgeView.mk "A" "B" none none false 2) (by decide)

/-- Claim C4: the claim says construction never aborts for any step contents
once the schema is valid, but a step whose `Name` holds no " - " separator
makes `label_parts[1]` raise `IndexError` on line 61 and the whole build
aborts; here the build of a schema-valid one-step document returns no graph
at all. -/
theorem single_part_name_aborts_build :
    mkLabel "Start" = none ∧ buildGraph docC4 = none := by
  refine ⟨?_, ?_⟩ <;> decide

/-- Claim C5: edges are emitted in document order of the steps; within one
step the direct edge precedes the conditional edges, the conditional edges
keep the mapping's insertion order (a filter of the entry list), and a step
with a resolving `nextStepId` and `k` resolving `selectNextStep` entries
contributes exactly `1 + k` edges, nothing deduplicated. -/
theorem edge_order_and_count (steps : List Step) (g : Graph) (s : Step) (t : String)
    (entries : List (String × String)) (hg : buildGraph steps = some g)
    (hnext : s.nextStepId = some t) (ht : t ≠ "") (hmem : t ∈ valid_step_ids steps)
    (hsel : s.selectNextStep = some entries) :
    g.edges = steps.flatMap (stepEdges (valid_step_ids steps)) ∧
    stepEdges (valid_step_ids steps) s =
      directEdges (valid_step_ids steps) s ++ condEdges (valid_step_ids steps) s.id entries ∧
    directEdges (valid_step_ids steps) s = [⟨s.id, t, none, none, false, 2⟩] ∧
    condEdges (valid_step_ids steps) s.id entries =
      (entries.filter (fun p => decide (p.1 ∈ valid_step_ids steps))).map
        (fun p => ⟨s.id, p.1, some p.2, some "#ffa500", true, 2⟩) ∧
    (stepEdges (valid_step_ids steps) s).length =
      1 + (entries.filter (fun p => decide (p.1 ∈ valid_step_ids steps))).length := by
  obtain ⟨-, hedges, -⟩ := buildGraph_parts steps g hg
  have hd : directEdges (valid_step_ids steps) s = [⟨s.id, t, none, none, false, 2⟩] := by
    simp [directEdges, hnext, ht, hmem]
  refine ⟨by rw [hedges, edgePhase_fst], by simp [stepEdges, hsel], hd,
    condEdges_eq_filter_map _ _ _, ?_⟩
  rw [stepEdges, hsel]
  simp only [Option.getD_some, List.length_append, hd,
    condEdges_eq_filter_map (valid_step_ids steps) s.id entries, List.length_map,
    List.length_singleton]

/-- Claim C5, witness at a concrete three-step document where step `A` has a
resolving direct successor and one of two conditional targets resolving. -/
theorem edge_order_and_count_witness :
    graphC5.edges = docC5.flatMap (stepEdges (valid_step_ids docC5)) ∧
    stepEdges (valid_step_ids docC5) stepC5 =
      directEdges (valid_step_ids docC5) stepC5 ++
        condEdges (valid_step_ids docC5) stepC5.id entriesC5 ∧
    directEdges (valid_step_ids docC5) stepC5 = [⟨stepC5.id, "B", none, none, false, 2⟩] ∧
    condEdges (valid_step_ids docC5) stepC5.id entriesC5 =
      (entriesC5.filter (fun p => decide (p.1 ∈ valid_step_ids docC5))).map
        (fun p => ⟨stepC5.id, p.1, some p.2, some "#ffa500", true, 2⟩) ∧
    (stepEdges (valid_step_ids docC5) stepC5).length =
      1 + (entriesC5.filter (fun p => decide (p.1 ∈ valid_step_ids docC5))).length :=
  edge_order_and_count docC5 graphC5 stepC5 "B" entriesC5 rfl rfl (by decide) (by decide) rfl

/-- Claim C6: the normalized step type is obtained by splitting the
`StepType` string on `,`, taking the first segment, splitting that on `.` and
taking the last segment; in particular
`"Foo.Bar.BazStep, AssemblyX, Version=1.0"` normalizes to `"BazStep"`. -/
theorem step_type_normalization :
    normalize_step_type "Foo.Bar.BazStep, AssemblyX, Version=1.0" = "BazStep" ∧
    ∀ t : String, normalize_step_type t = specNormalizedType t :=
  ⟨by decide, fun t => rfl⟩

/-- Claim C7, counterexample: the claim says a `Steps` value that is not a
sequence yields a `SchemaError`, but a document whose `Steps` is an empty
JSON object loads without any error: the line-28 comprehension iterates the
empty dict vacuously, the load succeeds with zero steps, and graph
construction proceeds to an empty graph. -/
theorem nonSequence_steps_accepted :
    loadDocument docC7bad =
      Except.ok ⟨Json.str "w", Json.str "1", Json.str "1", Json.str "d", []⟩ ∧
    buildGraph [] = some ⟨[], [], []⟩ :=
  ⟨rfl, rfl⟩

/-- Claim C7, amended: loading fails with the schema-failure class, before
any graph work, whenever one of the required top-level fields `Id`,
`Version`, `ReleaseVersion`, `DataType`, `Steps` is absent; a non-sequence
`Steps` value is not rejected as such. -/
theorem missing_required_field_schema_error (j : Json)
    (h : j.get? "Id" = none ∨ j.get? "Version" = none ∨ j.get? "ReleaseVersion" = none ∨
         j.get? "DataType" = none ∨ j.get? "Steps" = none) :
    loadDocument j = Except.error LoadError.schemaError := by
  unfold loadDocument
  cases h1 : j.get? "Id" with
  | none => rfl
  | some i =>
    cases h2 : j.get? "Version" with
    | none => rfl
    | some v =>
      cases h3 : j.get? "ReleaseVersion" with
      | none => rfl
      | some rv =>
        cases h4 : j.get? "DataType" with
        | none => rfl
        | some dt =>
          cases h5 : j.get? "Steps" with
          | none => rfl
          | some sv =>
            rcases h with h | h | h | h | h
            · rw [h1] at h; cases h
            · rw [h2] at h; cases h
            · rw [h3] at h; cases h
            · rw [h4] at h; cases h
            · rw [h5] at h; cases h

/-- Claim C7, witness: a concrete document holding the other four required
fields but no `Steps` key fails the load with the schema-failure class. -/
theorem missing_steps_key_schema_error :
    loadDocument docC7 = Except.error LoadError.schemaError :=
  missing_required_field_schema_error docC7
    (Or.inr (Or.inr (Or.inr (Or.inr rfl))))

/-- Claim C8: in every graph the build produces, the node ids are exactly the
step ids with no duplicate node (so duplicate step ids collapse to one node
and no step is withheld), and when the step ids are pairwise distinct the
node count equals the step count. -/
theorem node_count_and_collapse (steps : List Step) (g : Graph)
    (hg : buildGraph steps = some g) :
    (∀ x, x ∈ g.nodes.map NodeView.id ↔ x ∈ valid_step_ids steps) ∧
    (g.nodes.map NodeView.id).Nodup ∧
    ((steps.map Step.id).Nodup → g.nodes.length = steps.length) := by
  have hb := (buildGraph_parts steps g hg).1
  refine ⟨fun x => nodeIds_iff steps g hg x, ?_, ?_⟩
  · exact buildNodesAux_nodup steps [] g.nodes (by simp) hb
  · intro hnd
    have := buildNodesAux_length steps [] g.nodes hb (by simp) hnd
    simpa using this

/-- Claim C8, witness: a concrete two-step document with distinct ids builds
a graph with exactly two nodes. -/
theorem node_count_and_collapse_witness :
    graphC8.nodes.length = docC8.length :=
  (node_count_and_collapse docC8 graphC8 rfl).2.2 (by decide)

/-- Claim C9: a step whose `NextStepId` is present but equal to the empty
string contributes neither a direct edge nor a `missing_nodes` entry; its
edge-phase output is the same as if `NextStepId` were absent. -/
theorem empty_next_step_id_terminal (valid : List String) (s : Step)
    (h : s.nextStepId = some "") :
    directEdges valid s = [] ∧ directMissing valid s = [] ∧
    stepEdges valid s = stepEdges valid { s with nextStepId := none } ∧
    stepMissing valid s = stepMissing valid { s with nextStepId := none } := by
  refine ⟨by simp [directEdges, h], by simp [directMissing, h], ?_, ?_⟩ <;>
    simp [stepEdges, stepMissing, directEdges, directMissing, h]

/-- Claim C9, witness at a concrete step with `NextStepId = ""` and one
conditional successor. -/
theorem empty_next_step_id_terminal_witness :
    directEdges validC9 stepC9 = [] ∧ directMissing validC9 stepC9 = [] ∧
    stepEdges validC9 stepC9 = stepEdges validC9 { stepC9 with nextStepId := none } ∧
    stepMissing validC9 stepC9 = stepMissing validC9 { stepC9 with nextStepId := none } :=
  empty_next_step_id_terminal validC9 stepC9 rfl

/-- Claim C10: the id-to-name table built on line 28 resolves every id to the
`Name` of the last step in document order holding that id (dict
comprehension semantics are last-write-wins); concretely, two steps sharing
id `A` resolve to the second step's name. -/
theorem duplicate_id_last_write_wins :
    (∀ (steps : List Step) (i : String),
      dictGet (step_id_to_name steps) i = lastNameInDoc steps i) ∧
    dictGet (step_id_to_name docC10) "A" = some "second" := by
  constructor
  · intro steps i
    rw [step_id_to_name, dictGet_foldl i steps []]
    cases hf : steps.reverse.find? (fun s => s.id == i) <;> simp [lastNameInDoc, hf, dictGet]
  · decide

end Workflow2
